import Mathlib

set_option maxHeartbeats 1600000

/-!
Verification development for the AgentInventory repository
(`AgentInventory.py`, revision 1, and `AgentInventory2.0.py`, revision 2).

The development gives a shallow embedding of the core logic of both
revisions:

* `run_graphql_query` — the query executor (identical in both files);
* `AgentInventoryV1.run_graphql_query_for_day` — the day paginator of
  `AgentInventory.py`;
* `AgentInventoryV2.run_graphql_query_for_day` — the day paginator of
  `AgentInventory2.0.py`;
* `processExplore` / `processServices` — the two branches of
  `process_query_results`;
* `processEnvironment` — the per-environment summary aggregation of
  `AgentInventory2.0.py`'s `main`.

The remote backend is modelled as a function from the request offset to a
transport outcome: the query template, time window and environment are
fixed for one call of the paginator, so the offset is the only varying
input of each page request.  Machine-level aspects (HTTP, pandas
DataFrames, Excel output) are abstracted: a DataFrame built from a list of
row dicts is modelled as the list of rows itself.
-/

/-- Shape of the parsed `data` field of a response body: the `explore`
shape, the `entities` shape, or anything else (the `else` branch of the
shape dispatch in `run_graphql_query_for_day`). -/
inductive DataPayload (α : Type) where
  | explore (results : List α) (total : Option Nat)
  | entities (results : List α) (total : Option Nat)
  | other
  deriving DecidableEq

/-- Parsed response body: an optional `errors` array (the key may be absent,
or present with any list, possibly empty) plus the `data` payload. -/
structure GqlResponse (α : Type) where
  errors : Option (List String)
  data : DataPayload α
  deriving DecidableEq

/-- Embedding of `run_graphql_query` (identical logic in both source files):
a transport-level failure (`requests` exception, non-2xx status) yields
`none`; a parsed body whose `errors` key is present yields `none` after
logging the error list; otherwise the parsed body is returned.  The second
component collects the GraphQL error lists written to the log. -/
def run_graphql_query {α : Type} (resp : Except Unit (GqlResponse α)) :
    Option (GqlResponse α) × List (List String) :=
  match resp with
  | .error _ => (none, [])
  | .ok body =>
    match body.errors with
    | some errs => (none, [errs])
    | none => (some body, [])

/-- Embedding of `total_records is not None and len(all_results) >= total_records`
from `AgentInventory2.0.py`. -/
def totalReached (total : Option Nat) (n : Nat) : Bool :=
  match total with
  | some t => decide (t ≤ n)
  | none => false

namespace AgentInventoryV1

/-- Embedding of `run_graphql_query_for_day` from `AgentInventory.py`.
`backend` maps the request offset to the transport outcome of that page
request.  The loop is fueled: `none` means the fuel ran out before the
`while True:` loop of the source stopped; `some (all_results, reqs)` gives
the returned accumulated records together with the list of offsets at
which requests were issued, in order.  This revision stores the declared
total (`total_records`) but never consults it: only the short-page check
`len(current_results) < limit` stops a successful iteration. -/
def run_graphql_query_for_day {α : Type} (backend : Nat → Except Unit (GqlResponse α))
    (limit : Nat) : Nat → Nat → List α → List Nat → Option (List α × List Nat)
  | 0, _, _, _ => none
  | fuel + 1, offset, all_results, reqs =>
    match (run_graphql_query (backend offset)).1 with
    | none => some (all_results, reqs ++ [offset])
    | some body =>
      match body.data with
      | .explore current _ =>
        let acc := all_results ++ current
        if current.length < limit then some (acc, reqs ++ [offset])
        else run_graphql_query_for_day backend limit fuel (offset + limit) acc (reqs ++ [offset])
      | .entities current _ =>
        let acc := all_results ++ current
        if current.length < limit then some (acc, reqs ++ [offset])
        else run_graphql_query_for_day backend limit fuel (offset + limit) acc (reqs ++ [offset])
      | .other => some (all_results, reqs ++ [offset])

end AgentInventoryV1

namespace AgentInventoryV2

/-- Embedding of `run_graphql_query_for_day` from `AgentInventory2.0.py`.
Same conventions as the revision-1 embedding.  After extending the
accumulator this revision first checks
`total_records is not None and len(all_results) >= total_records`
(where `total_records` was just reassigned from the current page, so it is
the current page's declared total), then the short-page check. -/
def run_graphql_query_for_day {α : Type} (backend : Nat → Except Unit (GqlResponse α))
    (limit : Nat) : Nat → Nat → List α → List Nat → Option (List α × List Nat)
  | 0, _, _, _ => none
  | fuel + 1, offset, all_results, reqs =>
    match (run_graphql_query (backend offset)).1 with
    | none => some (all_results, reqs ++ [offset])
    | some body =>
      match body.data with
      | .explore current total =>
        let acc := all_results ++ current
        if totalReached total acc.length then some (acc, reqs ++ [offset])
        else if current.length < limit then some (acc, reqs ++ [offset])
        else run_graphql_query_for_day backend limit fuel (offset + limit) acc (reqs ++ [offset])
      | .entities current total =>
        let acc := all_results ++ current
        if totalReached total acc.length then some (acc, reqs ++ [offset])
        else if current.length < limit then some (acc, reqs ++ [offset])
        else run_graphql_query_for_day backend limit fuel (offset + limit) acc (reqs ++ [offset])
      | .other => some (all_results, reqs ++ [offset])

end AgentInventoryV2

/-- A backend that faithfully serves pages of a fixed record list by offset:
the page at offset `o` holds the records at positions `o, o+1, …` up to the
page size, and — when `d` is true — declares the true total on every page.
No transport failures, no GraphQL errors, always the `explore` shape. -/
def faithfulBackend {α : Type} (recs : List α) (d : Bool) (limit : Nat) :
    Nat → Except Unit (GqlResponse α) :=
  fun offset =>
    .ok ⟨none, .explore ((recs.drop offset).take limit) (if d then some recs.length else none)⟩

/-- The arithmetic progression `off, off + step, …` of length `k`: the shape
of the offsets a pagination run issues. -/
def offsetSeq (off step : Nat) : Nat → List Nat
  | 0 => []
  | k + 1 => off :: offsetSeq (off + step) step k

theorem offsetSeq_eq_range_map (step : Nat) :
    ∀ (k off : Nat), offsetSeq off step k = (List.range k).map (fun i => off + i * step) := by
  intro k
  induction k with
  | zero => intro off; rfl
  | succ k ih =>
    intro off
    rw [List.range_succ_eq_map, offsetSeq, ih]
    simp only [List.map_cons, List.map_map, Nat.zero_mul, Nat.add_zero]
    congr 1
    apply List.map_congr_left
    intro i _
    simp only [Function.comp_apply, Nat.succ_eq_add_one]
    ring

theorem offsetSeq_length (off step k : Nat) : (offsetSeq off step k).length = k := by
  induction k generalizing off with
  | zero => rfl
  | succ k ih => simp [offsetSeq, ih]

theorem le_of_mem_offsetSeq {off step k x : Nat} (h : x ∈ offsetSeq off step k) : off ≤ x := by
  induction k generalizing off with
  | zero => cases h
  | succ k ih =>
    simp only [offsetSeq, List.mem_cons] at h
    rcases h with rfl | h
    · exact le_rfl
    · exact le_trans (Nat.le_add_right _ _) (ih h)

theorem chain'_offsetSeq (off step k : Nat) :
    List.Chain' (fun a b => b = a + step) (offsetSeq off step k) := by
  induction k generalizing off with
  | zero => exact List.chain'_nil
  | succ k ih =>
    rw [offsetSeq]
    refine List.chain'_cons'.mpr ⟨?_, ih (off + step)⟩
    · intro b hb
      cases k with
      | zero => simp [offsetSeq] at hb
      | succ k =>
        simp only [offsetSeq, List.head?_cons, Option.mem_def, Option.some.injEq] at hb
        omega

theorem pairwise_lt_offsetSeq {step : Nat} (hstep : 1 ≤ step) (off k : Nat) :
    (offsetSeq off step k).Pairwise (· < ·) := by
  induction k generalizing off with
  | zero => exact List.Pairwise.nil
  | succ k ih =>
    rw [offsetSeq]
    refine List.pairwise_cons.mpr ⟨?_, ih (off + step)⟩
    intro x hx
    have := le_of_mem_offsetSeq hx
    omega

theorem v1_step_faithful {α : Type} (recs : List α) (d : Bool) (limit fuel offset : Nat)
    (acc : List α) (reqs : List Nat) :
    AgentInventoryV1.run_graphql_query_for_day (faithfulBackend recs d limit) limit
        (fuel + 1) offset acc reqs
      = if ((recs.drop offset).take limit).length < limit
        then some (acc ++ (recs.drop offset).take limit, reqs ++ [offset])
        else AgentInventoryV1.run_graphql_query_for_day (faithfulBackend recs d limit) limit
          fuel (offset + limit) (acc ++ (recs.drop offset).take limit) (reqs ++ [offset]) :=
  rfl

theorem v1_faithful_run {α : Type} (recs : List α) (d : Bool) (limit : Nat) (hl : 1 ≤ limit) :
    ∀ (fuel offset : Nat) (acc : List α) (reqs : List Nat),
      recs.length ≤ offset + fuel * limit →
      AgentInventoryV1.run_graphql_query_for_day (faithfulBackend recs d limit) limit
          (fuel + 1) offset acc reqs
        = some (acc ++ recs.drop offset,
            reqs ++ offsetSeq offset limit ((recs.length - offset) / limit + 1)) := by
  intro fuel
  induction fuel with
  | zero =>
    intro offset acc reqs h
    simp only [Nat.zero_mul, Nat.add_zero] at h
    have hdrop : recs.drop offset = [] := List.drop_eq_nil_of_le h
    have hsub : recs.length - offset = 0 := Nat.sub_eq_zero_of_le h
    rw [v1_step_faithful, if_pos (by rw [hdrop]; simpa using hl), hdrop, hsub]
    simp [offsetSeq]
  | succ fuel ih =>
    intro offset acc reqs h
    by_cases hshort : recs.length - offset < limit
    · have htake : (recs.drop offset).take limit = recs.drop offset :=
        List.take_of_length_le (by simp only [List.length_drop]; omega)
      have hlen : ((recs.drop offset).take limit).length < limit := by
        rw [htake, List.length_drop]; exact hshort
      have hdiv : (recs.length - offset) / limit = 0 := Nat.div_eq_of_lt hshort
      rw [v1_step_faithful, if_pos hlen, htake, hdiv]
      simp [offsetSeq]
    · push_neg at hshort
      have hlen : ((recs.drop offset).take limit).length = limit := by
        rw [List.length_take, List.length_drop]; omega
      have hcond : recs.length ≤ offset + limit + fuel * limit := by
        rw [Nat.succ_mul] at h; omega
      rw [v1_step_faithful, if_neg (by omega),
        ih (offset + limit) (acc ++ (recs.drop offset).take limit) (reqs ++ [offset]) hcond]
      have hjoin : (acc ++ (recs.drop offset).take limit) ++ recs.drop (offset + limit)
          = acc ++ recs.drop offset := by
        rw [← List.drop_drop, List.append_assoc, List.take_append_drop]
      have hcount : (recs.length - offset) / limit + 1
          = ((recs.length - (offset + limit)) / limit + 1) + 1 := by
        have hd : (recs.length - offset) / limit = (recs.length - offset - limit) / limit + 1 :=
          Nat.div_eq_sub_div (by omega) hshort
        rw [show recs.length - offset - limit = recs.length - (offset + limit) by omega] at hd
        omega
      have hseq : offsetSeq offset limit ((recs.length - offset) / limit + 1)
          = offset :: offsetSeq (offset + limit) limit
              ((recs.length - (offset + limit)) / limit + 1) := by
        rw [hcount]; rfl
      rw [hjoin, hseq]
      simp

theorem v2_step_faithful {α : Type} (recs : List α) (d : Bool) (limit fuel offset : Nat)
    (acc : List α) (reqs : List Nat) :
    AgentInventoryV2.run_graphql_query_for_day (faithfulBackend recs d limit) limit
        (fuel + 1) offset acc reqs
      = if totalReached (if d then some recs.length else none)
            ((acc ++ (recs.drop offset).take limit).length)
        then some (acc ++ (recs.drop offset).take limit, reqs ++ [offset])
        else if ((recs.drop offset).take limit).length < limit
        then some (acc ++ (recs.drop offset).take limit, reqs ++ [offset])
        else AgentInventoryV2.run_graphql_query_for_day (faithfulBackend recs d limit) limit
          fuel (offset + limit) (acc ++ (recs.drop offset).take limit) (reqs ++ [offset]) :=
  rfl

theorem v2_faithful_run_nototal {α : Type} (recs : List α) (limit : Nat) (hl : 1 ≤ limit) :
    ∀ (fuel offset : Nat) (acc : List α) (reqs : List Nat),
      recs.length ≤ offset + fuel * limit →
      AgentInventoryV2.run_graphql_query_for_day (faithfulBackend recs false limit) limit
          (fuel + 1) offset acc reqs
        = some (acc ++ recs.drop offset,
            reqs ++ offsetSeq offset limit ((recs.length - offset) / limit + 1)) := by
  intro fuel
  induction fuel with
  | zero =>
    intro offset acc reqs h
    simp only [Nat.zero_mul, Nat.add_zero] at h
    have hdrop : recs.drop offset = [] := List.drop_eq_nil_of_le h
    have hsub : recs.length - offset = 0 := Nat.sub_eq_zero_of_le h
    rw [v2_step_faithful, if_neg (by simp [totalReached]),
      if_pos (by rw [hdrop]; simpa using hl), hdrop, hsub]
    simp [offsetSeq]
  | succ fuel ih =>
    intro offset acc reqs h
    rw [v2_step_faithful, if_neg (by simp [totalReached])]
    by_cases hshort : recs.length - offset < limit
    · have htake : (recs.drop offset).take limit = recs.drop offset :=
        List.take_of_length_le (by simp only [List.length_drop]; omega)
      have hlen : ((recs.drop offset).take limit).length < limit := by
        rw [htake, List.length_drop]; exact hshort
      have hdiv : (recs.length - offset) / limit = 0 := Nat.div_eq_of_lt hshort
      rw [if_pos hlen, htake, hdiv]
      simp [offsetSeq]
    · push_neg at hshort
      have hlen : ((recs.drop offset).take limit).length = limit := by
        rw [List.length_take, List.length_drop]; omega
      have hcond : recs.length ≤ offset + limit + fuel * limit := by
        rw [Nat.succ_mul] at h; omega
      rw [if_neg (by omega),
        ih (offset + limit) (acc ++ (recs.drop offset).take limit) (reqs ++ [offset]) hcond]
      have hjoin : (acc ++ (recs.drop offset).take limit) ++ recs.drop (offset + limit)
          = acc ++ recs.drop offset := by
        rw [← List.drop_drop, List.append_assoc, List.take_append_drop]
      have hcount : (recs.length - offset) / limit + 1
          = ((recs.length - (offset + limit)) / limit + 1) + 1 := by
        have hd : (recs.length - offset) / limit = (recs.length - offset - limit) / limit + 1 :=
          Nat.div_eq_sub_div (by omega) hshort
        rw [show recs.length - offset - limit = recs.length - (offset + limit) by omega] at hd
        omega
      have hseq : offsetSeq offset limit ((recs.length - offset) / limit + 1)
          = offset :: offsetSeq (offset + limit) limit
              ((recs.length - (offset + limit)) / limit + 1) := by
        rw [hcount]; rfl
      rw [hjoin, hseq]
      simp

theorem v2_faithful_run_total {α : Type} (recs : List α) (limit : Nat) (hl : 1 ≤ limit) :
    ∀ (fuel offset : Nat) (acc : List α) (reqs : List Nat),
      offset < recs.length → acc.length = offset →
      recs.length ≤ offset + (fuel + 1) * limit →
      AgentInventoryV2.run_graphql_query_for_day (faithfulBackend recs true limit) limit
          (fuel + 1) offset acc reqs
        = some (acc ++ recs.drop offset,
            reqs ++ offsetSeq offset limit ((recs.length - offset - 1) / limit + 1)) := by
  intro fuel
  induction fuel with
  | zero =>
    intro offset acc reqs hofflt hacclen h
    have htake : (recs.drop offset).take limit = recs.drop offset :=
      List.take_of_length_le (by simp only [List.length_drop]; omega)
    rw [v2_step_faithful, if_pos (by
      simp only [if_true, totalReached, htake, List.length_append, List.length_drop, hacclen,
        decide_eq_true_eq]
      omega)]
    rw [htake, show (recs.length - offset - 1) / limit = 0 from Nat.div_eq_of_lt (by omega)]
    simp [offsetSeq]
  | succ fuel ih =>
    intro offset acc reqs hofflt hacclen h
    rw [v2_step_faithful]
    by_cases hrem : recs.length - offset ≤ limit
    · have htake : (recs.drop offset).take limit = recs.drop offset :=
        List.take_of_length_le (by simp only [List.length_drop]; omega)
      rw [if_pos (by
        simp only [if_true, totalReached, htake, List.length_append, List.length_drop, hacclen,
          decide_eq_true_eq]
        omega)]
      rw [htake, show (recs.length - offset - 1) / limit = 0 from Nat.div_eq_of_lt (by omega)]
      simp [offsetSeq]
    · push_neg at hrem
      have hlen : ((recs.drop offset).take limit).length = limit := by
        rw [List.length_take, List.length_drop]; omega
      rw [if_neg (by
        simp only [if_true, totalReached, List.length_append, hacclen, hlen, decide_eq_true_eq]
        omega)]
      rw [if_neg (by omega)]
      have hcond : recs.length ≤ offset + limit + (fuel + 1) * limit := by
        rw [Nat.succ_mul] at h; omega
      rw [ih (offset + limit) (acc ++ (recs.drop offset).take limit) (reqs ++ [offset])
        (by omega) (by simp [hlen, hacclen]) hcond]
      have hjoin : (acc ++ (recs.drop offset).take limit) ++ recs.drop (offset + limit)
          = acc ++ recs.drop offset := by
        rw [← List.drop_drop, List.append_assoc, List.take_append_drop]
      have hcount : (recs.length - offset - 1) / limit + 1
          = ((recs.length - (offset + limit) - 1) / limit + 1) + 1 := by
        have hd : (recs.length - offset - 1) / limit
            = (recs.length - offset - 1 - limit) / limit + 1 :=
          Nat.div_eq_sub_div (by omega) (by omega)
        rw [show recs.length - offset - 1 - limit = recs.length - (offset + limit) - 1
          by omega] at hd
        omega
      have hseq : offsetSeq offset limit ((recs.length - offset - 1) / limit + 1)
          = offset :: offsetSeq (offset + limit) limit
              ((recs.length - (offset + limit) - 1) / limit + 1) := by
        rw [hcount]; rfl
      rw [hjoin, hseq]
      simp

/-- Claim C1 (amended).  For every page size `P ≥ 1` and every faithful
no-failure backend holding exactly `T` records, both revisions of
`run_graphql_query_for_day` return exactly the `T` records, issuing
requests at offsets `0, P, 2P, …` in that order.  In `AgentInventory2.0.py`
with the total declared on every page the number of requests is
`(T-1)/P + 1` (truncated subtraction): `⌈T/P⌉` for `T ≥ 1`, and a single
request for `T = 0` (= `⌊0/P⌋ + 1`, since even an empty day costs one
request).  In the remaining modelled cases — `AgentInventory.py` (which
stores but never consults the declared total), or a backend that declares
no total — it is `⌊T/P⌋ + 1`, which exceeds `⌈T/P⌉` exactly when `P`
divides `T` (including `T = 0`). -/
theorem paginator_fetches_all_records {α : Type} (recs : List α) (limit : Nat) (d : Bool)
    (hl : 1 ≤ limit) :
    (AgentInventoryV1.run_graphql_query_for_day (faithfulBackend recs d limit) limit
        (recs.length + 1) 0 [] []
      = some (recs, (List.range (recs.length / limit + 1)).map (fun i => i * limit)))
    ∧ (AgentInventoryV2.run_graphql_query_for_day (faithfulBackend recs false limit) limit
        (recs.length + 1) 0 [] []
      = some (recs, (List.range (recs.length / limit + 1)).map (fun i => i * limit)))
    ∧ (AgentInventoryV2.run_graphql_query_for_day (faithfulBackend recs true limit) limit
        (recs.length + 1) 0 [] []
      = some (recs, (List.range ((recs.length - 1) / limit + 1)).map (fun i => i * limit))) := by
  refine ⟨?_, ?_, ?_⟩
  · rw [v1_faithful_run recs d limit hl recs.length 0 [] []
      (by have := Nat.mul_le_mul_left recs.length hl; omega)]
    rw [offsetSeq_eq_range_map]
    simp
  · rw [v2_faithful_run_nototal recs limit hl recs.length 0 [] []
      (by have := Nat.mul_le_mul_left recs.length hl; omega)]
    rw [offsetSeq_eq_range_map]
    simp
  · cases recs with
    | nil =>
      rw [v2_step_faithful, if_pos (by simp [totalReached])]
      simp [List.range_succ]
    | cons a rest =>
      rw [v2_faithful_run_total (a :: rest) limit hl (a :: rest).length 0 [] [] (by simp) rfl
        (by have := Nat.mul_le_mul_left ((a :: rest).length + 1) hl; omega)]
      rw [offsetSeq_eq_range_map]
      simp

/-- Witness for C1's theorem at a concrete input: three records, page size
two, totals declared.  Revision 1 issues `⌊3/2⌋ + 1 = 2` requests at
offsets 0 and 2; revision 2 issues `⌈3/2⌉ = 2` requests. -/
theorem paginator_fetches_all_records_witness :
    AgentInventoryV1.run_graphql_query_for_day (faithfulBackend ([10, 20, 30] : List Nat) true 2) 2
        4 0 [] [] = some ([10, 20, 30], [0, 2])
    ∧ AgentInventoryV2.run_graphql_query_for_day (faithfulBackend ([10, 20, 30] : List Nat) true 2) 2
        4 0 [] [] = some ([10, 20, 30], [0, 2]) := by
  have h := paginator_fetches_all_records ([10, 20, 30] : List Nat) 2 true (by decide)
  exact ⟨h.1.trans (by decide), h.2.2.trans (by decide)⟩

/-- Counterexample to claim C1 as stated: a faithful backend holding exactly
`T = 1` record with page size `P = 1` (total declared).  `AgentInventory.py`
issues two requests, at offsets 0 and 1, although `⌈T/P⌉ = 1`: the declared
total is never consulted, so a second, empty page is fetched. -/
theorem paginator_request_count_cex :
    AgentInventoryV1.run_graphql_query_for_day (faithfulBackend ([7] : List Nat) true 1) 1
        3 0 [] [] = some ([7], [0, 1])
    ∧ ([0, 1] : List Nat).length ≠ (1 + 1 - 1) / 1 := by
  exact ⟨by decide, by decide⟩

theorem v1_step {α : Type} (backend : Nat → Except Unit (GqlResponse α))
    (limit fuel offset : Nat) (acc : List α) (reqs : List Nat) :
    AgentInventoryV1.run_graphql_query_for_day backend limit (fuel + 1) offset acc reqs
      = match (run_graphql_query (backend offset)).1 with
        | none => some (acc, reqs ++ [offset])
        | some body =>
          match body.data with
          | .explore current _ =>
            if current.length < limit then some (acc ++ current, reqs ++ [offset])
            else AgentInventoryV1.run_graphql_query_for_day backend limit fuel
              (offset + limit) (acc ++ current) (reqs ++ [offset])
          | .entities current _ =>
            if current.length < limit then some (acc ++ current, reqs ++ [offset])
            else AgentInventoryV1.run_graphql_query_for_day backend limit fuel
              (offset + limit) (acc ++ current) (reqs ++ [offset])
          | .other => some (acc, reqs ++ [offset]) :=
  rfl

theorem v2_step {α : Type} (backend : Nat → Except Unit (GqlResponse α))
    (limit fuel offset : Nat) (acc : List α) (reqs : List Nat) :
    AgentInventoryV2.run_graphql_query_for_day backend limit (fuel + 1) offset acc reqs
      = match (run_graphql_query (backend offset)).1 with
        | none => some (acc, reqs ++ [offset])
        | some body =>
          match body.data with
          | .explore current total =>
            if totalReached total (acc ++ current).length
            then some (acc ++ current, reqs ++ [offset])
            else if current.length < limit then some (acc ++ current, reqs ++ [offset])
            else AgentInventoryV2.run_graphql_query_for_day backend limit fuel
              (offset + limit) (acc ++ current) (reqs ++ [offset])
          | .entities current total =>
            if totalReached total (acc ++ current).length
            then some (acc ++ current, reqs ++ [offset])
            else if current.length < limit then some (acc ++ current, reqs ++ [offset])
            else AgentInventoryV2.run_graphql_query_for_day backend limit fuel
              (offset + limit) (acc ++ current) (reqs ++ [offset])
          | .other => some (acc, reqs ++ [offset]) :=
  rfl

theorem v1_reqs_shape {α : Type} (backend : Nat → Except Unit (GqlResponse α)) (limit : Nat) :
    ∀ (fuel offset : Nat) (acc : List α) (reqs0 : List Nat) (out : List α × List Nat),
      AgentInventoryV1.run_graphql_query_for_day backend limit fuel offset acc reqs0 = some out →
      ∃ k, out.2 = reqs0 ++ offsetSeq offset limit k := by
  intro fuel
  induction fuel with
  | zero =>
    intro offset acc reqs0 out h
    exact absurd h (by simp [AgentInventoryV1.run_graphql_query_for_day])
  | succ fuel ih =>
    intro offset acc reqs0 out h
    rw [v1_step] at h
    cases hb : (run_graphql_query (backend offset)).1 with
    | none =>
      simp only [hb] at h
      exact ⟨1, by simp only [Option.some.injEq] at h; rw [← h]; simp [offsetSeq]⟩
    | some body =>
      simp only [hb] at h
      cases hd : body.data with
      | explore current total =>
        simp only [hd] at h
        split at h
        · exact ⟨1, by simp only [Option.some.injEq] at h; rw [← h]; simp [offsetSeq]⟩
        · obtain ⟨k, hk⟩ := ih (offset + limit) (acc ++ current) (reqs0 ++ [offset]) out h
          exact ⟨k + 1, by rw [hk, offsetSeq, ← List.append_cons]⟩
      | entities current total =>
        simp only [hd] at h
        split at h
        · exact ⟨1, by simp only [Option.some.injEq] at h; rw [← h]; simp [offsetSeq]⟩
        · obtain ⟨k, hk⟩ := ih (offset + limit) (acc ++ current) (reqs0 ++ [offset]) out h
          exact ⟨k + 1, by rw [hk, offsetSeq, ← List.append_cons]⟩
      | other =>
        simp only [hd] at h
        exact ⟨1, by simp only [Option.some.injEq] at h; rw [← h]; simp [offsetSeq]⟩

theorem v2_reqs_shape {α : Type} (backend : Nat → Except Unit (GqlResponse α)) (limit : Nat) :
    ∀ (fuel offset : Nat) (acc : List α) (reqs0 : List Nat) (out : List α × List Nat),
      AgentInventoryV2.run_graphql_query_for_day backend limit fuel offset acc reqs0 = some out →
      ∃ k, out.2 = reqs0 ++ offsetSeq offset limit k := by
  intro fuel
  induction fuel with
  | zero =>
    intro offset acc reqs0 out h
    exact absurd h (by simp [AgentInventoryV2.run_graphql_query_for_day])
  | succ fuel ih =>
    intro offset acc reqs0 out h
    rw [v2_step] at h
    cases hb : (run_graphql_query (backend offset)).1 with
    | none =>
      simp only [hb] at h
      exact ⟨1, by simp only [Option.some.injEq] at h; rw [← h]; simp [offsetSeq]⟩
    | some body =>
      simp only [hb] at h
      cases hd : body.data with
      | explore current total =>
        simp only [hd] at h
        split at h
        · exact ⟨1, by simp only [Option.some.injEq] at h; rw [← h]; simp [offsetSeq]⟩
        · split at h
          · exact ⟨1, by simp only [Option.some.injEq] at h; rw [← h]; simp [offsetSeq]⟩
          · obtain ⟨k, hk⟩ := ih (offset + limit) (acc ++ current) (reqs0 ++ [offset]) out h
            exact ⟨k + 1, by rw [hk, offsetSeq, ← List.append_cons]⟩
      | entities current total =>
        simp only [hd] at h
        split at h
        · exact ⟨1, by simp only [Option.some.injEq] at h; rw [← h]; simp [offsetSeq]⟩
        · split at h
          · exact ⟨1, by simp only [Option.some.injEq] at h; rw [← h]; simp [offsetSeq]⟩
          · obtain ⟨k, hk⟩ := ih (offset + limit) (acc ++ current) (reqs0 ++ [offset]) out h
            exact ⟨k + 1, by rw [hk, offsetSeq, ← List.append_cons]⟩
      | other =>
        simp only [hd] at h
        exact ⟨1, by simp only [Option.some.injEq] at h; rw [← h]; simp [offsetSeq]⟩

/-- Claim C9.  Within a single day/category pagination run (either revision,
any backend), the sequence of offsets used for executor requests forms the
arithmetic progression `0, P, 2P, …`: it is strictly increasing (hence never
repeats an offset) and each successive offset exceeds the previous one by
exactly the requested page size. -/
theorem pagination_offsets_strictly_increasing {α : Type}
    (b1 b2 : Nat → Except Unit (GqlResponse α)) (limit f1 f2 : Nat)
    (res1 res2 : List α) (reqs1 reqs2 : List Nat) (hl : 1 ≤ limit)
    (h1 : AgentInventoryV1.run_graphql_query_for_day b1 limit f1 0 [] [] = some (res1, reqs1))
    (h2 : AgentInventoryV2.run_graphql_query_for_day b2 limit f2 0 [] [] = some (res2, reqs2)) :
    (reqs1 = (List.range reqs1.length).map (fun i => i * limit)
      ∧ List.Chain' (fun a b => b = a + limit) reqs1
      ∧ reqs1.Pairwise (· < ·))
    ∧ (reqs2 = (List.range reqs2.length).map (fun i => i * limit)
      ∧ List.Chain' (fun a b => b = a + limit) reqs2
      ∧ reqs2.Pairwise (· < ·)) := by
  obtain ⟨k1, hk1⟩ := v1_reqs_shape b1 limit f1 0 [] [] (res1, reqs1) h1
  obtain ⟨k2, hk2⟩ := v2_reqs_shape b2 limit f2 0 [] [] (res2, reqs2) h2
  simp only [List.nil_append] at hk1 hk2
  have shape : ∀ (reqs : List Nat) (k : Nat), reqs = offsetSeq 0 limit k →
      reqs = (List.range reqs.length).map (fun i => i * limit)
      ∧ List.Chain' (fun a b => b = a + limit) reqs
      ∧ reqs.Pairwise (· < ·) := by
    intro reqs k hk
    subst hk
    refine ⟨?_, chain'_offsetSeq 0 limit k, pairwise_lt_offsetSeq hl 0 k⟩
    rw [offsetSeq_length, offsetSeq_eq_range_map]
    simp
  exact ⟨shape reqs1 k1 hk1, shape reqs2 k2 hk2⟩

/-- Witness for C9's theorem: a concrete three-record run with page size 2
under both revisions issues offsets `[0, 2]`, a strictly increasing
progression with step 2. -/
theorem pagination_offsets_strictly_increasing_witness :
    (([0, 2] : List Nat) = (List.range ([0, 2] : List Nat).length).map (fun i => i * 2)
      ∧ List.Chain' (fun a b => b = a + 2) ([0, 2] : List Nat)
      ∧ ([0, 2] : List Nat).Pairwise (· < ·))
    ∧ (([0, 2] : List Nat) = (List.range ([0, 2] : List Nat).length).map (fun i => i * 2)
      ∧ List.Chain' (fun a b => b = a + 2) ([0, 2] : List Nat)
      ∧ ([0, 2] : List Nat).Pairwise (· < ·)) :=
  pagination_offsets_strictly_increasing (faithfulBackend ([1, 2, 3] : List Nat) false 2)
    (faithfulBackend ([1, 2, 3] : List Nat) false 2) 2 4 4 [1, 2, 3] [1, 2, 3] [0, 2] [0, 2]
    (by decide) (by decide) (by decide)

theorem run_graphql_query_eq_some {α : Type} {resp : Except Unit (GqlResponse α)}
    {body : GqlResponse α} (h : (run_graphql_query resp).1 = some body) :
    resp = Except.ok body := by
  cases resp with
  | error e => simp [run_graphql_query] at h
  | ok b =>
    cases he : b.errors with
    | none =>
      simp only [run_graphql_query, he, Option.some.injEq] at h
      rw [h]
    | some errs => simp [run_graphql_query, he] at h

theorem v1_terminates {α : Type} (backend : Nat → Except Unit (GqlResponse α))
    (limit N : Nat)
    (hN : ∀ o, N ≤ o → ∀ body, backend o = Except.ok body → ∀ res t,
      (body.data = DataPayload.explore res t ∨ body.data = DataPayload.entities res t) →
      res.length < limit) :
    ∀ (fuel offset : Nat) (acc : List α) (reqs : List Nat), N ≤ offset + fuel * limit →
      (AgentInventoryV1.run_graphql_query_for_day backend limit (fuel + 1) offset
        acc reqs).isSome = true := by
  intro fuel
  induction fuel with
  | zero =>
    intro offset acc reqs h
    simp only [Nat.zero_mul, Nat.add_zero] at h
    rw [v1_step]
    cases hb : (run_graphql_query (backend offset)).1 with
    | none => simp
    | some body =>
      cases hd : body.data with
      | explore current total =>
        have hok := run_graphql_query_eq_some hb
        have hshort := hN offset h body hok current total (Or.inl hd)
        simp [hd, hshort]
      | entities current total =>
        have hok := run_graphql_query_eq_some hb
        have hshort := hN offset h body hok current total (Or.inr hd)
        simp [hd, hshort]
      | other => simp [hd]
  | succ fuel ih =>
    intro offset acc reqs h
    rw [v1_step]
    cases hb : (run_graphql_query (backend offset)).1 with
    | none => simp
    | some body =>
      cases hd : body.data with
      | explore current total =>
        simp only [hd]
        by_cases hc : current.length < limit
        · simp [hc]
        · rw [if_neg hc]
          exact ih (offset + limit) (acc ++ current) (reqs ++ [offset])
            (by rw [Nat.succ_mul] at h; omega)
      | entities current total =>
        simp only [hd]
        by_cases hc : current.length < limit
        · simp [hc]
        · rw [if_neg hc]
          exact ih (offset + limit) (acc ++ current) (reqs ++ [offset])
            (by rw [Nat.succ_mul] at h; omega)
      | other => simp [hd]

theorem v2_terminates {α : Type} (backend : Nat → Except Unit (GqlResponse α))
    (limit N : Nat)
    (hN : ∀ o, N ≤ o → ∀ body, backend o = Except.ok body → ∀ res t,
      (body.data = DataPayload.explore res t ∨ body.data = DataPayload.entities res t) →
      res.length < limit) :
    ∀ (fuel offset : Nat) (acc : List α) (reqs : List Nat), N ≤ offset + fuel * limit →
      (AgentInventoryV2.run_graphql_query_for_day backend limit (fuel + 1) offset
        acc reqs).isSome = true := by
  intro fuel
  induction fuel with
  | zero =>
    intro offset acc reqs h
    simp only [Nat.zero_mul, Nat.add_zero] at h
    rw [v2_step]
    cases hb : (run_graphql_query (backend offset)).1 with
    | none => simp
    | some body =>
      dsimp only
      cases hd : body.data with
      | explore current total =>
        dsimp only
        have hok := run_graphql_query_eq_some hb
        have hshort := hN offset h body hok current total (Or.inl hd)
        by_cases ht : totalReached total (acc ++ current).length = true
        · rw [if_pos ht]; rfl
        · rw [if_neg ht, if_pos hshort]; rfl
      | entities current total =>
        dsimp only
        have hok := run_graphql_query_eq_some hb
        have hshort := hN offset h body hok current total (Or.inr hd)
        by_cases ht : totalReached total (acc ++ current).length = true
        · rw [if_pos ht]; rfl
        · rw [if_neg ht, if_pos hshort]; rfl
      | other => rfl
  | succ fuel ih =>
    intro offset acc reqs h
    rw [v2_step]
    cases hb : (run_graphql_query (backend offset)).1 with
    | none => simp
    | some body =>
      dsimp only
      cases hd : body.data with
      | explore current total =>
        dsimp only
        by_cases ht : totalReached total (acc ++ current).length = true
        · rw [if_pos ht]; rfl
        · rw [if_neg ht]
          by_cases hc : current.length < limit
          · rw [if_pos hc]; rfl
          · rw [if_neg hc]
            exact ih (offset + limit) (acc ++ current) (reqs ++ [offset])
              (by rw [Nat.succ_mul] at h; omega)
      | entities current total =>
        dsimp only
        by_cases ht : totalReached total (acc ++ current).length = true
        · rw [if_pos ht]; rfl
        · rw [if_neg ht]
          by_cases hc : current.length < limit
          · rw [if_pos hc]; rfl
          · rw [if_neg hc]
            exact ih (offset + limit) (acc ++ current) (reqs ++ [offset])
              (by rw [Nat.succ_mul] at h; omega)
      | other => rfl

/-- Claim C10.  For every backend holding finitely many records that honors
offset semantics — beyond some bound `N`, every successfully parsed page
carries fewer than `pageSize` records — the pagination loop of
`run_graphql_query_for_day` terminates in both revisions: fuel `N + 1`
already suffices for the loop to stop on its own, so the run issues at most
`N + 1` requests rather than infinitely many pages, even when no declared
total is ever returned. -/
theorem pagination_terminates {α : Type} (backend : Nat → Except Unit (GqlResponse α))
    (limit N : Nat) (hl : 1 ≤ limit)
    (hN : ∀ o, N ≤ o → ∀ body, backend o = Except.ok body → ∀ res t,
      (body.data = DataPayload.explore res t ∨ body.data = DataPayload.entities res t) →
      res.length < limit) :
    (AgentInventoryV1.run_graphql_query_for_day backend limit (N + 1) 0 [] []).isSome = true
    ∧ (AgentInventoryV2.run_graphql_query_for_day backend limit (N + 1) 0 [] []).isSome
      = true := by
  constructor
  · exact v1_terminates backend limit N hN N 0 [] []
      (by have := Nat.mul_le_mul_left N hl; omega)
  · exact v2_terminates backend limit N hN N 0 [] []
      (by have := Nat.mul_le_mul_left N hl; omega)

/-- Witness for C10's theorem: the faithful three-record backend with page
size 2 serves only short pages from offset 3 onwards, and both runs complete
within fuel 4. -/
theorem pagination_terminates_witness :
    (AgentInventoryV1.run_graphql_query_for_day (faithfulBackend ([1, 2, 3] : List Nat) false 2) 2
        4 0 [] []).isSome = true
    ∧ (AgentInventoryV2.run_graphql_query_for_day (faithfulBackend ([1, 2, 3] : List Nat) false 2)
        2 4 0 [] []).isSome = true :=
  pagination_terminates (faithfulBackend ([1, 2, 3] : List Nat) false 2) 2 3 (by decide)
    (by
      intro o ho body hb res t hd
      simp only [faithfulBackend, Except.ok.injEq] at hb
      subst hb
      rcases hd with hd | hd
      · simp only [DataPayload.explore.injEq] at hd
        rw [← hd.1]
        simp only [List.length_take, List.length_drop, List.length_cons, List.length_nil]
        omega
      · simp at hd)

deriving instance DecidableEq for Except

theorem v1_kept_pages {α : Type} (backend : Nat → Except Unit (GqlResponse α)) (limit : Nat) :
    ∀ (m offset : Nat) (q : Nat → List α) (tot : Nat → Option Nat) (acc : List α)
      (reqs : List Nat),
      (∀ i, i < m → (∃ body, backend (offset + i * limit) = Except.ok body
          ∧ body.errors = none
          ∧ (body.data = DataPayload.explore (q i) (tot i)
            ∨ body.data = DataPayload.entities (q i) (tot i)))
        ∧ (q i).length = limit) →
      ((run_graphql_query (backend (offset + m * limit))).1 = none
        ∨ ∃ b, (run_graphql_query (backend (offset + m * limit))).1 = some b
            ∧ b.data = DataPayload.other) →
      AgentInventoryV1.run_graphql_query_for_day backend limit (m + 1) offset acc reqs
        = some (acc ++ ((List.range m).map q).flatten, reqs ++ offsetSeq offset limit (m + 1)) := by
  intro m
  induction m with
  | zero =>
    intro offset q tot acc reqs hfull hstop
    simp only [Nat.zero_mul, Nat.add_zero] at hstop
    rw [v1_step]
    rcases hstop with hstop | ⟨b, hb, hdata⟩
    · rw [hstop]
      simp [offsetSeq]
    · simp only [hb, hdata]
      simp [offsetSeq]
  | succ m ih =>
    intro offset q tot acc reqs hfull hstop
    obtain ⟨⟨body, hb0, herr, hshape⟩, hlen0⟩ := hfull 0 (Nat.succ_pos m)
    simp only [Nat.zero_mul, Nat.add_zero] at hb0
    rw [v1_step]
    simp only [hb0, run_graphql_query, herr]
    have hrec := ih (offset + limit) (fun i => q (i + 1)) (fun i => tot (i + 1)) (acc ++ q 0)
      (reqs ++ [offset])
      (by
        intro i hi
        obtain ⟨hbody, hlen⟩ := hfull (i + 1) (by omega)
        refine ⟨?_, hlen⟩
        rwa [show offset + (i + 1) * limit = offset + limit + i * limit by ring] at hbody)
      (by
        rwa [show offset + limit + m * limit = offset + (m + 1) * limit by ring])
    have hjoin : (acc ++ q 0) ++ ((List.range m).map (fun i => q (i + 1))).flatten
        = acc ++ ((List.range (m + 1)).map q).flatten := by
      rw [List.range_succ_eq_map, List.map_cons, List.map_map, List.flatten_cons,
        List.append_assoc]
      rfl
    have hseq : (reqs ++ [offset]) ++ offsetSeq (offset + limit) limit (m + 1)
        = reqs ++ offsetSeq offset limit (m + 1 + 1) := by
      simp [offsetSeq]
    rcases hshape with hd | hd
    · simp only [hd]
      rw [if_neg (by omega), hrec, hjoin, hseq]
    · simp only [hd]
      rw [if_neg (by omega), hrec, hjoin, hseq]

theorem v2_kept_pages {α : Type} (backend : Nat → Except Unit (GqlResponse α)) (limit : Nat) :
    ∀ (m offset : Nat) (q : Nat → List α) (tot : Nat → Option Nat) (acc : List α)
      (reqs : List Nat),
      (∀ i, i < m → (∃ body, backend (offset + i * limit) = Except.ok body
          ∧ body.errors = none
          ∧ (body.data = DataPayload.explore (q i) (tot i)
            ∨ body.data = DataPayload.entities (q i) (tot i)))
        ∧ (q i).length = limit
        ∧ totalReached (tot i) (acc.length + (i + 1) * limit) = false) →
      ((run_graphql_query (backend (offset + m * limit))).1 = none
        ∨ ∃ b, (run_graphql_query (backend (offset + m * limit))).1 = some b
            ∧ b.data = DataPayload.other) →
      AgentInventoryV2.run_graphql_query_for_day backend limit (m + 1) offset acc reqs
        = some (acc ++ ((List.range m).map q).flatten, reqs ++ offsetSeq offset limit (m + 1)) := by
  intro m
  induction m with
  | zero =>
    intro offset q tot acc reqs hfull hstop
    simp only [Nat.zero_mul, Nat.add_zero] at hstop
    rw [v2_step]
    rcases hstop with hstop | ⟨b, hb, hdata⟩
    · rw [hstop]
      simp [offsetSeq]
    · simp only [hb, hdata]
      simp [offsetSeq]
  | succ m ih =>
    intro offset q tot acc reqs hfull hstop
    obtain ⟨⟨body, hb0, herr, hshape⟩, hlen0, ht0⟩ := hfull 0 (Nat.succ_pos m)
    simp only [Nat.zero_mul, Nat.add_zero] at hb0
    rw [v2_step]
    simp only [hb0, run_graphql_query, herr]
    have hrec := ih (offset + limit) (fun i => q (i + 1)) (fun i => tot (i + 1)) (acc ++ q 0)
      (reqs ++ [offset])
      (by
        intro i hi
        obtain ⟨hbody, hlen, htr⟩ := hfull (i + 1) (by omega)
        refine ⟨?_, hlen, ?_⟩
        · rwa [show offset + (i + 1) * limit = offset + limit + i * limit by ring] at hbody
        · rw [List.length_append, hlen0,
            show acc.length + limit + (i + 1) * limit = acc.length + (i + 1 + 1) * limit
              by ring]
          exact htr)
      (by
        rwa [show offset + limit + m * limit = offset + (m + 1) * limit by ring])
    have hnotot : ¬ totalReached (tot 0) ((acc ++ q 0).length) = true := by
      rw [List.length_append, hlen0,
        show acc.length + limit = acc.length + (0 + 1) * limit by ring, ht0]
      simp
    have hjoin : (acc ++ q 0) ++ ((List.range m).map (fun i => q (i + 1))).flatten
        = acc ++ ((List.range (m + 1)).map q).flatten := by
      rw [List.range_succ_eq_map, List.map_cons, List.map_map, List.flatten_cons,
        List.append_assoc]
      rfl
    have hseq : (reqs ++ [offset]) ++ offsetSeq (offset + limit) limit (m + 1)
        = reqs ++ offsetSeq offset limit (m + 1 + 1) := by
      simp [offsetSeq]
    rcases hshape with hd | hd
    · simp only [hd]
      rw [if_neg hnotot, if_neg (by omega), hrec, hjoin, hseq]
    · simp only [hd]
      rw [if_neg hnotot, if_neg (by omega), hrec, hjoin, hseq]

/-- Claim C4.  For every backend where the first `k` executor calls succeed
— parsed bodies with no `errors` key, full pages under either recognized
top-level shape, carrying arbitrary declared totals — and the `(k+1)`-th
either fails (transport error or GraphQL errors, making the executor return
the error outcome) or returns a payload with neither recognized top-level
key, both revisions of the day paginator stop there and return exactly the
records accumulated from the `k` successful pages: earlier pages' data is
kept, the failed page is requested exactly once (offsets `0, P, …, kP`)
and is not retried.  For `AgentInventory2.0.py` the declared totals must
not yet be reached by the accumulated counts — otherwise its total check
would legitimately end pagination before the failing call is ever made. -/
theorem paginator_keeps_accumulated_data {α : Type}
    (backend : Nat → Except Unit (GqlResponse α)) (limit k : Nat)
    (pages : Nat → List α) (tot : Nat → Option Nat)
    (hfull : ∀ i, i < k → ∃ body, backend (i * limit) = Except.ok body
      ∧ body.errors = none
      ∧ (body.data = DataPayload.explore (pages i) (tot i)
        ∨ body.data = DataPayload.entities (pages i) (tot i)))
    (hlen : ∀ i, i < k → (pages i).length = limit)
    (hstop : (run_graphql_query (backend (k * limit))).1 = none
      ∨ ∃ b, (run_graphql_query (backend (k * limit))).1 = some b
          ∧ b.data = DataPayload.other) :
    AgentInventoryV1.run_graphql_query_for_day backend limit (k + 1) 0 [] []
        = some (((List.range k).map pages).flatten, (List.range (k + 1)).map (fun i => i * limit))
    ∧ ((∀ i, i < k → totalReached (tot i) ((i + 1) * limit) = false) →
      AgentInventoryV2.run_graphql_query_for_day backend limit (k + 1) 0 [] []
        = some (((List.range k).map pages).flatten,
            (List.range (k + 1)).map (fun i => i * limit))) := by
  have hs0 : (run_graphql_query (backend (0 + k * limit))).1 = none
      ∨ ∃ b, (run_graphql_query (backend (0 + k * limit))).1 = some b
          ∧ b.data = DataPayload.other := by
    simpa using hstop
  constructor
  · rw [v1_kept_pages backend limit k 0 pages tot [] []
      (by
        intro i hi
        exact ⟨by simpa using hfull i hi, hlen i hi⟩)
      hs0, offsetSeq_eq_range_map]
    simp
  · intro hT
    rw [v2_kept_pages backend limit k 0 pages tot [] []
      (by
        intro i hi
        exact ⟨by simpa using hfull i hi, hlen i hi, by simpa using hT i hi⟩)
      hs0, offsetSeq_eq_range_map]
    simp

/-- Backend for the C4 witness: one full page of two records at offset 0
(declaring a not-yet-reached total of 5) and a transport failure at every
other offset. -/
def failingTailBackend : Nat → Except Unit (GqlResponse Nat) :=
  fun o => if o = 0 then Except.ok ⟨none, DataPayload.explore [1, 2] (some 5)⟩
           else Except.error ()

/-- Witness for C4's theorem: with page size 2, one successful full page
(declared total 5, not yet reached) and a failure on the second request,
both revisions return the two records of the first page after requests at
offsets 0 and 2. -/
theorem paginator_keeps_accumulated_data_witness :
    AgentInventoryV1.run_graphql_query_for_day failingTailBackend 2 2 0 [] []
        = some ([1, 2], [0, 2])
    ∧ AgentInventoryV2.run_graphql_query_for_day failingTailBackend 2 2 0 [] []
        = some ([1, 2], [0, 2]) := by
  have h := paginator_keeps_accumulated_data failingTailBackend 2 1 (fun _ => [1, 2])
    (fun _ => some 5)
    (by
      intro i hi
      have hi0 : i = 0 := by omega
      subst hi0
      exact ⟨⟨none, DataPayload.explore [1, 2] (some 5)⟩, rfl, rfl, Or.inl rfl⟩)
    (by decide) (Or.inl (by decide))
  exact ⟨h.1.trans (by decide), (h.2 (by decide)).trans (by decide)⟩

/-- Extracts the page (`results`, declared total) from a payload, `none` when
neither recognized top-level key is present.  Spec-side helper for the loop
formulations below. -/
def pageOf {α : Type} : DataPayload α → Option (List α × Option Nat)
  | .explore res t => some (res, t)
  | .entities res t => some (res, t)
  | .other => none

/-- Pagination loop written from the amended C2 stop rule for revision 1:
after a successfully parsed page, stop exactly when the page is short
(fetched < pageSize); otherwise advance the offset by the page size. -/
def pagSpecShortOnly {α : Type} (backend : Nat → Except Unit (GqlResponse α)) (limit : Nat) :
    Nat → Nat → List α → List Nat → Option (List α × List Nat)
  | 0, _, _, _ => none
  | fuel + 1, offset, acc, reqs =>
    match (run_graphql_query (backend offset)).1 with
    | none => some (acc, reqs ++ [offset])
    | some body =>
      match pageOf body.data with
      | none => some (acc, reqs ++ [offset])
      | some (current, _) =>
        if decide (current.length < limit)
        then some (acc ++ current, reqs ++ [offset])
        else pagSpecShortOnly backend limit fuel (offset + limit) (acc ++ current)
          (reqs ++ [offset])

/-- Pagination loop written from the amended C2 stop rule for revision 2:
after a successfully parsed page, stop exactly when the page is short OR the
total declared by the most recent page is non-null and already covered by
the accumulated count. -/
def pagSpecShortOrLatestTotal {α : Type} (backend : Nat → Except Unit (GqlResponse α))
    (limit : Nat) : Nat → Nat → List α → List Nat → Option (List α × List Nat)
  | 0, _, _, _ => none
  | fuel + 1, offset, acc, reqs =>
    match (run_graphql_query (backend offset)).1 with
    | none => some (acc, reqs ++ [offset])
    | some body =>
      match pageOf body.data with
      | none => some (acc, reqs ++ [offset])
      | some (current, total) =>
        if decide (current.length < limit) || totalReached total (acc ++ current).length
        then some (acc ++ current, reqs ++ [offset])
        else pagSpecShortOrLatestTotal backend limit fuel (offset + limit) (acc ++ current)
          (reqs ++ [offset])

/-- Pagination loop written from claim C2 as stated: the total-based stop
fires once a declared total HAS BEEN OBSERVED (recorded the first time a
non-null total is seen, kept thereafter) and the accumulated count reaches
it — not only when the most recent page re-declares the total. -/
def pagSpecObservedTotal {α : Type} (backend : Nat → Except Unit (GqlResponse α))
    (limit : Nat) : Nat → Nat → Option Nat → List α → List Nat → Option (List α × List Nat)
  | 0, _, _, _, _ => none
  | fuel + 1, offset, declared, acc, reqs =>
    match (run_graphql_query (backend offset)).1 with
    | none => some (acc, reqs ++ [offset])
    | some body =>
      match pageOf body.data with
      | none => some (acc, reqs ++ [offset])
      | some (current, t) =>
        let declared2 := match declared with | some v => some v | none => t
        if decide (current.length < limit) || totalReached declared2 (acc ++ current).length
        then some (acc ++ current, reqs ++ [offset])
        else pagSpecObservedTotal backend limit fuel (offset + limit) declared2
          (acc ++ current) (reqs ++ [offset])

/-- Claim C2 (amended).  The stop rule of the pagination loop, characterized
as an equivalence with independently written loops: `AgentInventory.py`
stops after a parsed page exactly when the fetched count is strictly below
the page size (the declared total is stored but never consulted);
`AgentInventory2.0.py` stops exactly when the page is short or the total
declared by the MOST RECENT page is non-null and the accumulated count has
reached it — a total observed on an earlier page but absent from the latest
page does not stop the loop.  In every other case the offset advances by
the page size and another page is requested. -/
theorem pagination_stop_condition {α : Type} (backend : Nat → Except Unit (GqlResponse α))
    (limit : Nat) :
    ∀ (fuel offset : Nat) (acc : List α) (reqs : List Nat),
      AgentInventoryV1.run_graphql_query_for_day backend limit fuel offset acc reqs
        = pagSpecShortOnly backend limit fuel offset acc reqs
      ∧ AgentInventoryV2.run_graphql_query_for_day backend limit fuel offset acc reqs
        = pagSpecShortOrLatestTotal backend limit fuel offset acc reqs := by
  intro fuel
  induction fuel with
  | zero => intro offset acc reqs; exact ⟨rfl, rfl⟩
  | succ fuel ih =>
    intro offset acc reqs
    constructor
    · rw [v1_step, pagSpecShortOnly]
      cases hb : (run_graphql_query (backend offset)).1 with
      | none => rfl
      | some body =>
        dsimp only
        cases hd : body.data with
        | explore current total =>
          dsimp only [pageOf]
          by_cases hc : current.length < limit
          · rw [if_pos hc, if_pos (by simpa using hc)]
          · rw [if_neg hc, if_neg (by simpa using hc)]
            exact (ih (offset + limit) (acc ++ current) (reqs ++ [offset])).1
        | entities current total =>
          dsimp only [pageOf]
          by_cases hc : current.length < limit
          · rw [if_pos hc, if_pos (by simpa using hc)]
          · rw [if_neg hc, if_neg (by simpa using hc)]
            exact (ih (offset + limit) (acc ++ current) (reqs ++ [offset])).1
        | other => rfl
    · rw [v2_step, pagSpecShortOrLatestTotal]
      cases hb : (run_graphql_query (backend offset)).1 with
      | none => rfl
      | some body =>
        dsimp only
        cases hd : body.data with
        | explore current total =>
          dsimp only [pageOf]
          by_cases ht : totalReached total (acc ++ current).length = true
          · rw [if_pos ht, if_pos (by rw [Bool.or_eq_true]; exact Or.inr ht)]
          · by_cases hc : current.length < limit
            · rw [if_neg ht, if_pos hc,
                if_pos (by rw [Bool.or_eq_true]; exact Or.inl (by simpa using hc))]
            · rw [if_neg ht, if_neg hc, if_neg (by
                rw [Bool.or_eq_true]
                rintro (h | h)
                · exact hc (by simpa using h)
                · exact ht h)]
              exact (ih (offset + limit) (acc ++ current) (reqs ++ [offset])).2
        | entities current total =>
          dsimp only [pageOf]
          by_cases ht : totalReached total (acc ++ current).length = true
          · rw [if_pos ht, if_pos (by rw [Bool.or_eq_true]; exact Or.inr ht)]
          · by_cases hc : current.length < limit
            · rw [if_neg ht, if_pos hc,
                if_pos (by rw [Bool.or_eq_true]; exact Or.inl (by simpa using hc))]
            · rw [if_neg ht, if_neg hc, if_neg (by
                rw [Bool.or_eq_true]
                rintro (h | h)
                · exact hc (by simpa using h)
                · exact ht h)]
              exact (ih (offset + limit) (acc ++ current) (reqs ++ [offset])).2
        | other => rfl

/-- Backend whose first page declares the full total and whose later pages
are empty with no total: exposes that revision 1 ignores the declared
total. -/
def stickyTotalBackend : Nat → Except Unit (GqlResponse Nat) :=
  fun o => if o = 0 then Except.ok ⟨none, DataPayload.explore [1, 2] (some 2)⟩
           else Except.ok ⟨none, DataPayload.explore [] none⟩

/-- Backend whose first page declares total 2 but whose second page declares
no total: exposes that revision 2 only consults the most recent page's
total, not a previously observed one. -/
def stickyTotalBackend2 : Nat → Except Unit (GqlResponse Nat) :=
  fun o => if o = 0 then Except.ok ⟨none, DataPayload.explore [5] (some 2)⟩
           else if o = 1 then Except.ok ⟨none, DataPayload.explore [6] none⟩
           else Except.ok ⟨none, DataPayload.explore [] none⟩

/-- Counterexample to claim C2 as stated.  On `stickyTotalBackend` with page
size 2, after the first page the declared total (2) has been observed and
the accumulated count (2) reaches it, yet `AgentInventory.py` issues a
second request (offsets `[0, 2]`) where the claimed rule (the
observed-total loop) stops after one.  On `stickyTotalBackend2` with page
size 1, `AgentInventory2.0.py` issues a third request (offsets
`[0, 1, 2]`) although the total observed on page one (2) is reached after
page two — the claimed rule stops after two requests. -/
theorem pagination_stop_condition_cex :
    (AgentInventoryV1.run_graphql_query_for_day stickyTotalBackend 2 3 0 [] []
        = some ([1, 2], [0, 2])
      ∧ pagSpecObservedTotal stickyTotalBackend 2 3 0 none [] [] = some ([1, 2], [0]))
    ∧ (AgentInventoryV2.run_graphql_query_for_day stickyTotalBackend2 1 4 0 [] []
        = some ([5, 6], [0, 1, 2])
      ∧ pagSpecObservedTotal stickyTotalBackend2 1 4 0 none [] [] = some ([5, 6], [0, 1])) :=
  ⟨⟨by decide, by decide⟩, ⟨by decide, by decide⟩⟩

/-- Claim C3 (amended).  The query executor fails (returns the error
outcome) exactly when a transport/HTTP-level error occurs or the parsed
body contains an `errors` key at all — even an empty `errors` array causes
failure; when the key is present the error list is surfaced to the log
rather than swallowed; a response with no `errors` key yields success,
returning the body carrying the data payload. -/
theorem executor_failure_characterization {α : Type} (resp : Except Unit (GqlResponse α)) :
    ((run_graphql_query resp).1 = none
        ↔ (∃ e, resp = Except.error e)
          ∨ (∃ body errs, resp = Except.ok body ∧ body.errors = some errs))
    ∧ (∀ body errs, resp = Except.ok body → body.errors = some errs →
        (run_graphql_query resp).2 = [errs])
    ∧ (∀ body, resp = Except.ok body → body.errors = none →
        (run_graphql_query resp).1 = some body) := by
  refine ⟨?_, ?_, ?_⟩
  · cases resp with
    | error e => simp [run_graphql_query]
    | ok b =>
      cases he : b.errors with
      | none => simp [run_graphql_query, he]
      | some errs =>
        simp only [run_graphql_query, he]
        simp only [true_iff, iff_true]
        exact Or.inr ⟨b, errs, rfl, he⟩
  · intro body errs hok he
    subst hok
    simp [run_graphql_query, he]
  · intro body hok he
    subst hok
    simp [run_graphql_query, he]

/-- Witness for C3's theorem: a body with `errors = ["boom"]` makes the
executor fail and log the error list. -/
theorem executor_failure_characterization_witness :
    (run_graphql_query (Except.ok
        (⟨some ["boom"], DataPayload.explore ([] : List Nat) none⟩ : GqlResponse Nat))).2
      = [["boom"]] :=
  (executor_failure_characterization
    (Except.ok (⟨some ["boom"], DataPayload.explore ([] : List Nat) none⟩ : GqlResponse Nat))).2.1
    _ ["boom"] rfl rfl

/-- Counterexample to claim C3 as stated: a response whose `errors` array is
present but EMPTY, alongside a data payload, is rejected by the executor
(`'errors' in data` tests key presence, not non-emptiness), where the claim
says it should yield success returning the payload. -/
theorem executor_empty_errors_cex :
    (run_graphql_query (Except.ok
        (⟨some [], DataPayload.explore [9] (some 1)⟩ : GqlResponse Nat))).1 = none
    ∧ (⟨some [], DataPayload.explore [9] (some 1)⟩ : GqlResponse Nat).errors = some [] :=
  ⟨rfl, rfl⟩

/-- Model of Python `str.strip()`: remove whitespace from both ends of the
string. -/
def pyStrip (s : String) : String :=
  ⟨((s.data.dropWhile Char.isWhitespace).reverse.dropWhile Char.isWhitespace).reverse⟩

/-- A raw record of the `explore` shape as consumed by
`process_query_results` for the agent/healthcheck categories.  Each
`Option String` IP field models `result.get(field, {}).get('value')`:
`none` when the key or its `value` entry is absent or null, `some s`
otherwise.  `intervalStart = none` models a missing `__intervalStart` key
(a KeyError when accessed); `count_calls = none` models a missing
`count_calls` dict or missing `value` key (a KeyError on access), and
`some v` carries the present `value` (possibly null). -/
structure ExploreRec where
  intervalStart : Option String
  tags_host_ip : Option String
  tags_net_peer_ip : Option String
  requestHeaders_host_ip : Option String
  count_calls : Option (Option Int)
  deriving DecidableEq

/-- A normalized agent/healthcheck row: the dict appended to `data`. -/
structure NormRec where
  intervalStart : String
  ip : String
  call_count : Option Int
  deriving DecidableEq

/-- Python `a or b` on optional strings: `a` unless it is absent/None or
the empty string (both falsy), else `b`. -/
def pyOr (a b : Option String) : Option String :=
  match a with
  | some s => if s = "" then b else some s
  | none => b

/-- The `or`-chain resolving the IP:
`result.get('tags_host_ip', {}).get('value') or
 result.get('tags_net_peer_ip', {}).get('value') or
 result.get('requestHeaders_host_ip', {}).get('value')`. -/
def ipCandidate (r : ExploreRec) : Option String :=
  pyOr r.tags_host_ip (pyOr r.tags_net_peer_ip r.requestHeaders_host_ip)

/-- One iteration of the normalization loop body for the agent/healthcheck
categories: `Except.error ()` models a KeyError escaping the loop (the IP
resolved truthy but `__intervalStart` or `count_calls['value']` is
missing), `ok none` a record silently skipped for lack of a truthy IP, and
`ok (some row)` an appended row (`if ip: ip = ip.strip(); data.append …`). -/
def normStep (r : ExploreRec) : Except Unit (Option NormRec) :=
  match ipCandidate r with
  | none => .ok none
  | some s =>
    if s = "" then .ok none
    else
      match r.intervalStart, r.count_calls with
      | some ts, some cc => .ok (some ⟨ts, pyStrip s, cc⟩)
      | _, _ => .error ()

/-- The row `normStep` emits for one record, disregarding batch-level
KeyError aborts. -/
def emit (r : ExploreRec) : Option NormRec :=
  match normStep r with
  | .ok o => o
  | .error _ => none

/-- The normalization loop over one batch: the first KeyError escapes and
aborts the whole loop. -/
def processExploreAux : List ExploreRec → Except Unit (List NormRec)
  | [] => .ok []
  | r :: rest =>
    match normStep r with
    | .error e => .error e
    | .ok none => processExploreAux rest
    | .ok (some n) =>
      match processExploreAux rest with
      | .error e => .error e
      | .ok l => .ok (n :: l)

/-- Embedding of the agent/healthcheck branch of `process_query_results`:
the `try/except KeyError` wraps the whole loop, and on a KeyError an empty
DataFrame is returned for the batch. -/
def processExplore (rs : List ExploreRec) : List NormRec :=
  match processExploreAux rs with
  | .ok l => l
  | .error _ => []

/-- A raw record of the `entities` shape consumed by the Services branch of
`process_query_results`; every field is read with `.get`, hence optional. -/
structure ServiceRec where
  entityId : Option String
  serviceName : Option String
  type : Option String
  version : Option String
  environment : Option String
  status : Option String
  lastSeen : Option String
  deriving DecidableEq

/-- A normalized Services row (same optional fields). -/
structure ServiceRow where
  entityId : Option String
  serviceName : Option String
  type : Option String
  version : Option String
  environment : Option String
  status : Option String
  lastSeen : Option String
  deriving DecidableEq

/-- Embedding of the Services branch of `process_query_results`: a direct
per-record field mapping, no record is ever dropped. -/
def processServices (rs : List ServiceRec) : List ServiceRow :=
  rs.map (fun r =>
    ⟨r.entityId, r.serviceName, r.type, r.version, r.environment, r.status, r.lastSeen⟩)

/-- Spec-side formulation of the C5 resolution rule: scan the candidate
fields in priority order, skip absent ones, and take the first non-empty
value. -/
def firstNonEmpty (l : List (Option String)) : Option String :=
  (l.filterMap id).find? (fun s => decide (s ≠ ""))

theorem pyOr_none (b : Option String) : pyOr none b = b := rfl

theorem pyOr_empty (b : Option String) : pyOr (some "") b = b := by simp [pyOr]

theorem pyOr_some {s : String} (h : s ≠ "") (b : Option String) : pyOr (some s) b = some s := by
  simp [pyOr, h]

theorem firstNonEmpty_cons_blank (o : Option String) (rest : List (Option String))
    (hb : o = none ∨ o = some "") : firstNonEmpty (o :: rest) = firstNonEmpty rest := by
  rcases hb with rfl | rfl <;> simp [firstNonEmpty, List.filterMap_cons, List.find?]

theorem firstNonEmpty_cons_nonempty (s : String) (hs : s ≠ "") (rest : List (Option String)) :
    firstNonEmpty (some s :: rest) = some s := by
  simp [firstNonEmpty, List.filterMap_cons, List.find?, hs]

theorem pyOr_firstNonEmpty (a b : Option String) (s : String) (hs : s ≠ "")
    (hc : pyOr a b = some s) : firstNonEmpty [a, b] = some s := by
  rcases a with _ | x
  · rw [pyOr_none] at hc
    rw [firstNonEmpty_cons_blank none [b] (Or.inl rfl), hc,
      firstNonEmpty_cons_nonempty s hs]
  · by_cases hx : x = ""
    · subst hx
      rw [pyOr_empty] at hc
      rw [firstNonEmpty_cons_blank _ [b] (Or.inr rfl), hc,
        firstNonEmpty_cons_nonempty s hs]
    · rw [pyOr_some hx] at hc
      obtain rfl : x = s := by injection hc
      exact firstNonEmpty_cons_nonempty x hx [b]

theorem ipCandidate_host {r : ExploreRec} {h : String}
    (hh : r.tags_host_ip = some h) (hne : h ≠ "") : ipCandidate r = some h := by
  unfold ipCandidate
  rw [hh, pyOr_some hne]

theorem ipCandidate_firstNonEmpty (r : ExploreRec) (s : String)
    (hc : ipCandidate r = some s) (hs : s ≠ "") :
    firstNonEmpty [r.tags_host_ip, r.tags_net_peer_ip, r.requestHeaders_host_ip] = some s := by
  unfold ipCandidate at hc
  rcases hh : r.tags_host_ip with _ | h
  · rw [hh, pyOr_none] at hc
    rw [firstNonEmpty_cons_blank _ _ (Or.inl rfl)]
    exact pyOr_firstNonEmpty _ _ s hs hc
  · by_cases hhe : h = ""
    · subst hhe
      rw [hh, pyOr_empty] at hc
      rw [firstNonEmpty_cons_blank _ _ (Or.inr rfl)]
      exact pyOr_firstNonEmpty _ _ s hs hc
    · rw [hh, pyOr_some hhe] at hc
      obtain rfl : h = s := by injection hc
      exact firstNonEmpty_cons_nonempty h hhe _

theorem emit_eq_some_iff (r : ExploreRec) (n : NormRec) :
    emit r = some n ↔ ∃ s, ipCandidate r = some s ∧ s ≠ ""
      ∧ ∃ ts cc, r.intervalStart = some ts ∧ r.count_calls = some cc
        ∧ n = ⟨ts, pyStrip s, cc⟩ := by
  unfold emit normStep
  cases hc : ipCandidate r with
  | none => simp
  | some s =>
    dsimp only
    by_cases hse : s = ""
    · subst hse
      simp
    · rw [if_neg hse]
      cases hts : r.intervalStart with
      | none =>
        cases hcc : r.count_calls <;> simp [hse]
      | some ts =>
        cases hcc : r.count_calls with
        | none => simp [hse]
        | some cc =>
          dsimp only
          constructor
          · intro hn
            simp only [Option.some.injEq] at hn
            exact ⟨s, rfl, hse, ts, cc, rfl, rfl, hn.symm⟩
          · rintro ⟨s2, hs2, _, ts2, cc2, hts2, hcc2, hn⟩
            simp only [Option.some.injEq] at hs2 hts2 hcc2
            rw [hn, hs2, hts2, hcc2]

theorem processExploreAux_ok_of_clean :
    ∀ (rs : List ExploreRec), (∀ r ∈ rs, normStep r ≠ Except.error ()) →
      processExploreAux rs = Except.ok (rs.filterMap emit) := by
  intro rs
  induction rs with
  | nil => intro _; rfl
  | cons r rest ih =>
    intro hclean
    have hr := hclean r (by simp)
    rw [processExploreAux]
    cases hn : normStep r with
    | error e => cases e; exact absurd hn hr
    | ok o =>
      cases o with
      | none =>
        rw [ih (fun x hx => hclean x (by simp [hx]))]
        simp [List.filterMap_cons, emit, hn]
      | some n =>
        rw [ih (fun x hx => hclean x (by simp [hx]))]
        simp [List.filterMap_cons, emit, hn]

theorem processExploreAux_mem :
    ∀ (rs : List ExploreRec) (l : List NormRec), processExploreAux rs = Except.ok l →
      ∀ n ∈ l, ∃ r ∈ rs, emit r = some n := by
  intro rs
  induction rs with
  | nil =>
    intro l hl n hn
    rw [processExploreAux] at hl
    simp only [Except.ok.injEq] at hl
    rw [← hl] at hn
    cases hn
  | cons r rest ih =>
    intro l hl n hn
    rw [processExploreAux] at hl
    cases hs : normStep r with
    | error e => rw [hs] at hl; cases hl
    | ok o =>
      rw [hs] at hl
      cases o with
      | none =>
        obtain ⟨x, hx, he⟩ := ih l hl n hn
        exact ⟨x, by simp [hx], he⟩
      | some m =>
        dsimp only at hl
        cases haux : processExploreAux rest with
        | error e => rw [haux] at hl; cases hl
        | ok l2 =>
          rw [haux] at hl
          simp only [Except.ok.injEq] at hl
          rw [← hl] at hn
          rcases List.mem_cons.mp hn with rfl | hn2
          · exact ⟨r, by simp, by simp [emit, hs]⟩
          · obtain ⟨x, hx, he⟩ := ih l2 haux n hn2
            exact ⟨x, by simp [hx], he⟩

theorem mem_processExplore {rs : List ExploreRec} {n : NormRec}
    (h : n ∈ processExplore rs) : ∃ r ∈ rs, emit r = some n := by
  unfold processExplore at h
  cases haux : processExploreAux rs with
  | error e => rw [haux] at h; cases h
  | ok l =>
    rw [haux] at h
    exact processExploreAux_mem rs l haux n h

theorem processExploreAux_error :
    ∀ (rs : List ExploreRec), (∃ r ∈ rs, normStep r = Except.error ()) →
      processExploreAux rs = Except.error () := by
  intro rs
  induction rs with
  | nil => rintro ⟨r, hr, _⟩; cases hr
  | cons r rest ih =>
    rintro ⟨x, hx, hxe⟩
    rw [processExploreAux]
    rcases List.mem_cons.mp hx with rfl | hx2
    · rw [hxe]
    · cases hs : normStep r with
      | error e => cases e; rfl
      | ok o =>
        cases o with
        | none => exact ih ⟨x, hx2, hxe⟩
        | some m => rw [ih ⟨x, hx2, hxe⟩]

/-- Claim C5.  For every agent/healthcheck batch that normalizes without a
KeyError, the output is the per-record emission in order, and for every raw
record the emitted `ip` is the whitespace-stripped value of the first
non-empty candidate among the host-tag, peer-tag and request-header fields,
checked in that fixed priority order; in particular, when the host-tag
field holds a non-empty value, the emitted `ip` equals its trimmed value,
regardless of the peer-tag field. -/
theorem normalizer_ip_priority (rs : List ExploreRec)
    (hclean : ∀ r ∈ rs, normStep r ≠ Except.error ()) :
    processExplore rs = rs.filterMap emit
    ∧ (∀ r ∈ rs, ∀ n, emit r = some n →
        ∃ s, firstNonEmpty [r.tags_host_ip, r.tags_net_peer_ip, r.requestHeaders_host_ip]
          = some s ∧ n.ip = pyStrip s)
    ∧ (∀ r ∈ rs, ∀ h, r.tags_host_ip = some h → h ≠ "" → ∀ n, emit r = some n →
        n.ip = pyStrip h) := by
  refine ⟨?_, ?_, ?_⟩
  · unfold processExplore
    rw [processExploreAux_ok_of_clean rs hclean]
  · intro r _ n hn
    obtain ⟨s, hcs, hse, ts, cc, _, _, hn2⟩ := (emit_eq_some_iff r n).mp hn
    exact ⟨s, ipCandidate_firstNonEmpty r s hcs hse, by rw [hn2]⟩
  · intro r _ h hh hne n hn
    obtain ⟨s, hcs, hse, ts, cc, _, _, hn2⟩ := (emit_eq_some_iff r n).mp hn
    have hsh : s = h := by
      have h2 := (ipCandidate_host hh hne).symm.trans hcs
      injection h2 with h3
      exact h3.symm
    rw [hn2, hsh]

/-- Record for the C5 witness: both the host tag (with surrounding
whitespace) and the peer tag populated; the host tag wins and is trimmed. -/
def ws5Rec : ExploreRec := ⟨some "t1", some " 10.0.0.5 ", some "9.9.9.9", none, some (some 3)⟩

/-- Witness for C5's theorem: the single-record batch normalizes to the
host-tag value `" 10.0.0.5 "` trimmed to `"10.0.0.5"`, not the peer-tag
value. -/
theorem normalizer_ip_priority_witness :
    processExplore [ws5Rec] = [⟨"t1", "10.0.0.5", some 3⟩] :=
  ((normalizer_ip_priority [ws5Rec] (by decide)).1).trans (by decide)

/-- An IP candidate field that Python treats as falsy: absent (or null
`value`) or the empty string. -/
def blankField (o : Option String) : Prop := o = none ∨ o = some ""

/-- Claim C6 (amended).  Raw records whose three IP-candidate fields are all
absent or empty produce no output record, and every record in the
normalized output carries an `ip` equal to the whitespace-stripped value of
a non-empty winning candidate of some input record — which is the empty
string exactly when that winning candidate consisted only of whitespace
(the emptiness check precedes stripping). -/
theorem normalizer_output_ip_shape (rs : List ExploreRec) :
    (∀ r ∈ rs, blankField r.tags_host_ip → blankField r.tags_net_peer_ip →
      blankField r.requestHeaders_host_ip → emit r = none)
    ∧ (∀ n ∈ processExplore rs, ∃ r ∈ rs, ∃ s, ipCandidate r = some s ∧ s ≠ ""
        ∧ n.ip = pyStrip s) := by
  constructor
  · intro r _ h1 h2 h3
    have hblank : ipCandidate r = none ∨ ipCandidate r = some "" := by
      unfold ipCandidate
      rcases h3 with h3 | h3
      · rcases h2 with h2 | h2
        · rw [h2, h3, pyOr_none]
          rcases h1 with h1 | h1
          · rw [h1, pyOr_none]; exact Or.inl rfl
          · rw [h1, pyOr_empty]; exact Or.inl rfl
        · rw [h2, h3, pyOr_empty]
          rcases h1 with h1 | h1
          · rw [h1, pyOr_none]; exact Or.inl rfl
          · rw [h1, pyOr_empty]; exact Or.inl rfl
      · rcases h2 with h2 | h2
        · rw [h2, h3, pyOr_none]
          rcases h1 with h1 | h1
          · rw [h1, pyOr_none]; exact Or.inr rfl
          · rw [h1, pyOr_empty]; exact Or.inr rfl
        · rw [h2, h3, pyOr_empty]
          rcases h1 with h1 | h1
          · rw [h1, pyOr_none]; exact Or.inr rfl
          · rw [h1, pyOr_empty]; exact Or.inr rfl
    unfold emit normStep
    rcases hblank with hc | hc <;> simp [hc]
  · intro n hn
    obtain ⟨r, hr, he⟩ := mem_processExplore hn
    obtain ⟨s, hcs, hse, ts, cc, _, _, hn2⟩ := (emit_eq_some_iff r n).mp he
    exact ⟨r, hr, s, hcs, hse, by rw [hn2]⟩

/-- Record for the C6 witness: all three IP-candidate fields absent or
empty. -/
def blankRec : ExploreRec := ⟨some "t2", none, some "", none, some (some 1)⟩

/-- Witness for C6's theorem: the all-blank record is dropped. -/
theorem normalizer_output_ip_shape_witness : emit blankRec = none :=
  (normalizer_output_ip_shape [blankRec]).1 blankRec (List.mem_singleton.mpr rfl)
    (Or.inl rfl) (Or.inr rfl) (Or.inl rfl)

/-- Record for the C6 counterexample: the host-tag value is a single space —
non-empty, hence Python-truthy. -/
def wsOnlyRec : ExploreRec := ⟨some "t3", some " ", none, none, some (some 2)⟩

/-- Counterexample to claim C6 as stated: a record whose host-tag value is a
single space is emitted with its `ip` stripped to the EMPTY string — the
normalized output does contain an empty-ip row, because `if ip:` is checked
before `ip.strip()`. -/
theorem normalizer_empty_ip_cex :
    (processExplore [wsOnlyRec]).map NormRec.ip = [""] := by decide

/-- Claim C7 (amended).  When any record of an agent/healthcheck batch
yields an IP but lacks a required non-IP field (interval start or call
count), the resulting KeyError is caught around the whole loop:
`process_query_results` returns an empty table for that batch, discarding
the normalized rows of every other well-formed record; processing does not
continue past the offending record. -/
theorem normalizer_batch_discard (rs : List ExploreRec)
    (h : ∃ r ∈ rs, normStep r = Except.error ()) : processExplore rs = [] := by
  unfold processExplore
  rw [processExploreAux_error rs h]

/-- A well-formed record for the C7 theorems. -/
def goodRec : ExploreRec := ⟨some "t0", some "10.0.0.1", none, none, some (some 3)⟩

/-- A record that resolves an IP but lacks `__intervalStart`: accessing it
raises a KeyError. -/
def badRec : ExploreRec := ⟨none, some "10.0.0.2", none, none, some (some 4)⟩

/-- Witness for C7's theorem: a batch containing the KeyError record
normalizes to the empty table. -/
theorem normalizer_batch_discard_witness : processExplore [badRec] = [] :=
  normalizer_batch_discard [badRec] ⟨badRec, List.mem_singleton.mpr rfl, by decide⟩

/-- Counterexample to claim C7 as stated: a batch holding one well-formed
record (which alone would normalize to a row) and one record lacking
`__intervalStart` normalizes to the EMPTY table — the well-formed record's
row is discarded too, instead of only the offending record being skipped. -/
theorem normalizer_batch_discard_cex :
    processExplore [goodRec, badRec] = []
    ∧ emit goodRec = some ⟨"t0", "10.0.0.1", some 3⟩
    ∧ ([] : List NormRec) ≠ [⟨"t0", "10.0.0.1", some 3⟩] :=
  ⟨by decide, by decide, by decide⟩

/-- The per-environment summary counters of `AgentInventory2.0.py`. -/
structure Summary where
  total_linux_ips : Nat
  total_windows_ips : Nat
  total_services : Nat
  total_healthchecks : Nat
  deriving DecidableEq

/-- Embedding of the per-environment aggregation of `main` in
`AgentInventory2.0.py`: for each category, the day results of the look-back
window are accumulated (`all_results.extend(day_results)`), normalized in
one batch, and — only when the resulting table is non-empty — the unique-IP
sets (`unique_…_ips.update(df['ip'].unique())`, modelled as a `Finset`) and
the row-count totals are filled in; the summary row carries the set sizes
and row counts. -/
def processEnvironment (linuxDays windowsDays healthDays : List (List ExploreRec))
    (servicesDays : List (List ServiceRec)) : Summary :=
  let linuxDf := processExplore linuxDays.flatten
  let windowsDf := processExplore windowsDays.flatten
  let servicesDf := processServices servicesDays.flatten
  let healthDf := processExplore healthDays.flatten
  let unique_linux_ips : Finset String :=
    if linuxDf.isEmpty then ∅ else (linuxDf.map NormRec.ip).toFinset
  let unique_windows_ips : Finset String :=
    if windowsDf.isEmpty then ∅ else (windowsDf.map NormRec.ip).toFinset
  let total_services : Nat := if servicesDf.isEmpty then 0 else servicesDf.length
  let total_healthchecks : Nat := if healthDf.isEmpty then 0 else healthDf.length
  ⟨unique_linux_ips.card, unique_windows_ips.card, total_services, total_healthchecks⟩

/-- Claim C8.  For each environment, `total_linux_ips` and
`total_windows_ips` equal the number of distinct `ip` values across all
normalized records of the corresponding agent category over all days of the
window (`List.dedup.length` of the ip column of the accumulated table — an
ip appearing on several days or in several rows is counted exactly once),
while `total_services` and `total_healthchecks` equal the row counts of
their accumulated tables. -/
theorem summary_counts_distinct_ips (linuxDays windowsDays healthDays : List (List ExploreRec))
    (servicesDays : List (List ServiceRec)) :
    (processEnvironment linuxDays windowsDays healthDays servicesDays).total_linux_ips
        = ((processExplore linuxDays.flatten).map NormRec.ip).dedup.length
    ∧ (processEnvironment linuxDays windowsDays healthDays servicesDays).total_windows_ips
        = ((processExplore windowsDays.flatten).map NormRec.ip).dedup.length
    ∧ (processEnvironment linuxDays windowsDays healthDays servicesDays).total_services
        = (processServices servicesDays.flatten).length
    ∧ (processEnvironment linuxDays windowsDays healthDays servicesDays).total_healthchecks
        = (processExplore healthDays.flatten).length := by
  have hcard : ∀ (df : List NormRec),
      (if df.isEmpty then (∅ : Finset String) else (df.map NormRec.ip).toFinset).card
        = (df.map NormRec.ip).dedup.length := by
    intro df
    by_cases h : df.isEmpty
    · rw [if_pos h, List.isEmpty_iff.mp h]
      rfl
    · rw [if_neg h]
      exact List.card_toFinset _
  have hcnt : ∀ {β : Type} (df : List β), (if df.isEmpty then 0 else df.length) = df.length := by
    intro β df
    by_cases h : df.isEmpty
    · rw [if_pos h, List.isEmpty_iff.mp h]
      rfl
    · rw [if_neg h]
  exact ⟨hcard _, hcard _, hcnt _, hcnt _⟩
